import Mathlib

set_option maxHeartbeats 1000000

/-!
Verification of the markup-to-outline reconstruction engine
(XMLPaperParser in pdf_parser.py, with the Paper/Section/Paragraph data
model of paper_elements.py), as a shallow embedding.  Strings are Lean
strings, element trees are a rose tree of tag, attributes, text, tail
and children, and Python exceptions are modelled with Except.
-/

namespace QkgPdf

/-- Python whitespace class used by str.strip, str.lstrip and the regex
escape for whitespace. -/
def isPySpace (c : Char) : Bool :=
  c = ' ' || c = '\t' || c = '\n' || c = '\r' || c = '\x0b' || c = '\x0c'

def pyLstripL (cs : List Char) : List Char := cs.dropWhile isPySpace

def pyRstripL (cs : List Char) : List Char := (cs.reverse.dropWhile isPySpace).reverse

def pyStripL (cs : List Char) : List Char := pyRstripL (pyLstripL cs)

/-- str.strip() with no arguments. -/
def pyStrip (s : String) : String := (pyStripL s.toList).asString

/-- str.lstrip() with no arguments. -/
def pyLstrip (s : String) : String := (pyLstripL s.toList).asString

/-- str.lower(), ASCII letters. -/
def pyLower (s : String) : String := (s.toList.map Char.toLower).asString

/-- Truthiness of an optional string, as Python uses it in conditions:
None and the empty string are falsy. -/
def pyTruthy : Option String → Bool
  | some s => s ≠ ""
  | none => false

def pyStr (o : Option String) : String := o.getD ""

/-- Python exceptions that the parser code can raise. -/
inductive PyErr where
  | valueError
  | indexError
  | attributeError
deriving DecidableEq, Repr

/-- Shallow model of an ElementTree element: local tag name (namespace
prefixes dropped), the n and type attributes, own text, tail text, and the
list of child elements. -/
inductive XMLElem where
  | mk (tag : String) (nAttr : Option String) (typeAttr : Option String)
       (text : Option String) (tail : Option String) (children : List XMLElem)

def XMLElem.tag : XMLElem → String | .mk t _ _ _ _ _ => t

def XMLElem.nAttr : XMLElem → Option String | .mk _ n _ _ _ _ => n

def XMLElem.typeAttr : XMLElem → Option String | .mk _ _ ty _ _ _ => ty

def XMLElem.text : XMLElem → Option String | .mk _ _ _ tx _ _ => tx

def XMLElem.tail : XMLElem → Option String | .mk _ _ _ _ tl _ => tl

def XMLElem.children : XMLElem → List XMLElem | .mk _ _ _ _ _ ch => ch

def XMLElem.withTail (e : XMLElem) (tl : Option String) : XMLElem :=
  match e with | .mk t n ty tx _ ch => .mk t n ty tx tl ch

mutual

/-- XMLPaperParser._extract_text_from_element, inner process_elem: append
the element text, recurse into children unless the tag is ref, append the
tail when the depth is positive. -/
def processElem : XMLElem → Nat → String
  | .mk tag _ _ txt tl ch, depth =>
    (if pyTruthy txt then pyStr txt else "") ++
    (if tag ≠ "ref" then processChildren ch (depth + 1) else "") ++
    (if pyTruthy tl && decide (depth > 0) then pyStr tl else "")

def processChildren : List XMLElem → Nat → String
  | [], _ => ""
  | c :: cs, depth => processElem c depth ++ processChildren cs depth

end

/-- XMLPaperParser._extract_text_from_element: run process_elem at depth 0
and strip the joined result. -/
def extractTextFromElement (e : XMLElem) : String := pyStrip (processElem e 0)

/-! ## The two section-number regexes, as direct functional matchers -/

/-- Take a maximal nonempty digit run from the front. -/
def takeDigitRun (cs : List Char) : Option (List Char × List Char) :=
  let run := cs.takeWhile Char.isDigit
  if run.isEmpty then none else some (run, cs.drop run.length)

/-- Continue a chain of dot separated digit runs as far as possible.  This
is the unique way the group of digit runs in both regexes can match, since
the regex continuations after the group start with a period that is not
followed by a digit, or with a non-period.  The fuel argument only bounds
the recursion depth so the definition reduces in the kernel: every step
consumes at least two characters, so fuel equal to the input length is
always enough and the out-of-fuel arm is unreachable. -/
def chainAux : Nat → List (List Char) → List Char → List (List Char) × List Char
  | 0, acc, cs => (acc, cs)
  | fuel + 1, acc, '.' :: cs =>
    let run := cs.takeWhile Char.isDigit
    if run.isEmpty then (acc, '.' :: cs)
    else chainAux fuel (acc ++ [run]) (cs.drop run.length)
  | _ + 1, acc, cs => (acc, cs)

/-- Parse the leading group of dot separated digit runs. -/
def parseChain (cs : List Char) : Option (List (List Char) × List Char) :=
  match takeDigitRun cs with
  | none => none
  | some (r, rest) => some (chainAux rest.length [r] rest)

/-- Numeric value of a digit run, as Python int() on it. -/
def digitsVal (run : List Char) : Nat :=
  run.foldl (fun a c => a * 10 + (c.toNat - 48)) 0

/-- The regex end anchor also matches just before a single final newline;
dropping that newline first gives the same matches because the lazy dot in
group 2 cannot cross a newline. -/
def dropFinalNewline (cs : List Char) : List Char :=
  if cs.getLast? = some '\n' then cs.dropLast else cs

/-- Full anchored match of SECTION_PATTERN (dot separated digit runs, an
optional period, then optionally whitespace and a title).  Returns the
digit runs of group 1 and group 2 when it participates. -/
def sectionPatternMatch (s : String) : Option (List (List Char) × Option (List Char)) :=
  let cs := dropFinalNewline s.toList
  match parseChain cs with
  | none => none
  | some (runs, rest1) =>
    let rest2 := if rest1.head? = some '.' then rest1.tail else rest1
    match rest2 with
    | [] => some (runs, none)
    | c :: _ =>
      if isPySpace c then
        let r := rest2.dropWhile isPySpace
        if r.contains '\n' then none else some (runs, some r)
      else none

/-- Anchored prefix match of SECTION_NUMBER_PATTERN: dot separated digit
runs, then a period, then at least one whitespace character.  Returns the
digit runs of group 1. -/
def sectionNumberPatternMatch (s : String) : Option (List (List Char)) :=
  match parseChain s.toList with
  | none => none
  | some (runs, rest) =>
    match rest with
    | '.' :: c :: _ => if isPySpace c then some runs else none
    | _ => none

/-- str.replace(target, empty, 1): remove the first occurrence of target. -/
def pyRemoveOnceL (target : List Char) : List Char → List Char
  | [] => []
  | c :: cs =>
    if target.isPrefixOf (c :: cs) then (c :: cs).drop target.length
    else c :: pyRemoveOnceL target cs

/-- str.rstrip with a period argument: drop trailing periods. -/
def pyRstripDots (s : String) : String :=
  ((s.toList.reverse.dropWhile (· = '.')).reverse).asString

/-- re.split on whitespace preceded by a sentence end, with maxsplit one:
split at the first whitespace character whose predecessor is a period,
an exclamation mark or a question mark; the whitespace run is consumed. -/
def sentSplitAux (prev : Option Char) (acc : List Char) : List Char → List (List Char)
  | [] => [acc.reverse]
  | c :: rest =>
    if isPySpace c && (prev = some '.' || prev = some '!' || prev = some '?') then
      [acc.reverse, (c :: rest).dropWhile isPySpace]
    else sentSplitAux (some c) (c :: acc) rest

def sentenceSplitOnce (s : String) : List String :=
  (sentSplitAux none [] s.toList).map List.asString

/-! ## Block classification -/

/-- XMLPaperParser.NON_SECTION_KEYWORDS, in source order. -/
def NON_SECTION_KEYWORDS : List String :=
  ["figure", "fig", "table", "theorem", "lemma", "proposition",
   "corollary", "definition", "remark", "example", "proof",
   "algorithm", "equation", "appendix"]

def startsWithNonSectionKeyword (textLower : String) : Bool :=
  NON_SECTION_KEYWORDS.any (fun k => k.toList.isPrefixOf textLower.toList)

/-- The element_type strings passed to the classification helpers. -/
inductive EType where
  | head
  | p
deriving DecidableEq, Repr

/-- Second component returned by _parse_section_number: a plain title
string on the head paths, the sentence split list on the p path. -/
inductive TitleVal where
  | str (s : String)
  | parts (ps : List String)
deriving DecidableEq, Repr

/-- The HTMLSection dataclass. -/
structure HTMLSection where
  numbers : List Nat
  level : Int
  title : String
  element : Option XMLElem
  paragraphs : List String

instance : Inhabited HTMLSection := ⟨⟨[], 0, "", none, []⟩⟩

/-- Final loop of _compare_section_levels: walk the zipped components,
answer the ascend value on a successor component, stop on a mismatch. -/
def ascendLoop : List (Nat × Nat) → Int
  | [] => 2
  | (i, j) :: rest => if j = i + 1 then -1 else if i ≠ j then 2 else ascendLoop rest

/-- XMLPaperParser._compare_section_levels on the current hierarchy stack
(bottom of the stack first, as the Python list).  The only reachable error
is the index error Python would raise taking the last component of an
empty candidate when the top frame numbers are also empty. -/
def compareSectionLevels (hierarchy : List HTMLSection) (newNumbers : List Nat) :
    Except PyErr Int :=
  match hierarchy.getLast? with
  | none => .ok 1
  | some top =>
    let current := top.numbers
    if newNumbers.length = current.length + 1 ∧ newNumbers.dropLast = current ∧
        (newNumbers.getLastD 0 = 0 ∨ newNumbers.getLastD 0 = 1) then
      .ok 1
    else if newNumbers.length = current.length then
      if newNumbers.dropLast = current.dropLast then
        match newNumbers.getLast?, current.getLast? with
        | some a, some b =>
          if a = b + 1 then .ok 0 else .ok (ascendLoop (current.zip newNumbers))
        | _, _ => .error .indexError
      else .ok (ascendLoop (current.zip newNumbers))
    else .ok (ascendLoop (current.zip newNumbers))

/-- Text branches of _parse_section_number, reached when the n attribute
branch does not return. -/
def parseSectionNumberText (text : String) (etype : EType) :
    Except PyErr (Option (List Nat × TitleVal)) :=
  if text ≠ "" then
    match etype with
    | .head =>
      match sectionPatternMatch text with
      | some (runs, g2) =>
        .ok (some (runs.map digitsVal, .str (pyStrip (pyStr (g2.map List.asString)))))
      | none => .ok none
    | .p =>
      match sectionNumberPatternMatch text with
      | none => .ok none
      | some runs =>
        let numbersStr := List.intercalate ['.'] runs
        let t1 := pyLstripL (pyRemoveOnceL numbersStr text.toList)
        match t1 with
        | '.' :: rest =>
          .ok (some (runs.map digitsVal,
                     .parts (sentenceSplitOnce (pyLstripL rest).asString)))
        | [] => .error .indexError
        | _ =>
          .ok (some (runs.map digitsVal, .parts (sentenceSplitOnce t1.asString)))
  else .ok none

/-- XMLPaperParser._parse_section_number.  The n attribute parameter is
kept from the source even though both call sites leave it at its None
default. -/
def parseSectionNumber (text0 : String) (etype : EType) (nAttr : Option String) :
    Except PyErr (Option (List Nat × TitleVal)) :=
  let text := pyStrip text0
  if etype = .head ∧ pyTruthy nAttr ∧ pyStrip (pyStr nAttr) ≠ "" then
    match sectionPatternMatch (pyRstripDots (pyStrip (pyStr nAttr))) with
    | some (runs, g2) =>
      let title := if text ≠ "" then text else pyStrip (pyStr (g2.map List.asString))
      .ok (some (runs.map digitsVal, .str title))
    | none => parseSectionNumberText text etype
  else parseSectionNumberText text etype

/-- The text _parse_section_title_from_p actually inspects: head blocks
get a nonempty stripped n attribute prepended first. -/
def effectiveText (text0 : String) (etype : EType) (nAttr : Option String) : String :=
  if etype = .head ∧ pyTruthy nAttr ∧ pyStrip (pyStr nAttr) ≠ ""
  then pyStrip (pyStr nAttr) ++ " " ++ text0 else text0

/-- XMLPaperParser._parse_section_title_from_p: prepend a nonempty n
attribute for head blocks, reject on a leading non-section keyword, then
parse the section number; p blocks additionally need a relation other
than the inconsistent value 2 against the current hierarchy. -/
def parseSectionTitleFromP (hierarchy : List HTMLSection) (text0 : String)
    (etype : EType) (nAttr : Option String) :
    Except PyErr (Option (List Nat × TitleVal)) := do
  let text := effectiveText text0 etype nAttr
  let textLower := pyStrip (pyLower text)
  if startsWithNonSectionKeyword textLower then
    return none
  else
    match ← parseSectionNumber text etype none with
    | some (numbers, title) =>
      if numbers.isEmpty then return none
      else if etype = .head then return some (numbers, title)
      else
        let r ← compareSectionLevels hierarchy numbers
        if r ≠ 2 then return some (numbers, title) else return none
    | none => return none

/-! ## Parser state: an arena of HTMLSection values plus the hierarchy
stack of the instance.  Python aliases one HTMLSection object from the
hierarchy list, the returned sections list and the current section
variable; the arena models that shared mutable identity. -/

structure PState where
  arena : List HTMLSection
  hierarchy : List Nat

def initPState : PState := ⟨[], []⟩

def getSec (st : PState) (i : Nat) : HTMLSection := st.arena.getD i default

def hierSections (st : PState) : List HTMLSection := st.hierarchy.map (getSec st)

def addSec (st : PState) (s : HTMLSection) : PState × Nat :=
  ({ st with arena := st.arena ++ [s] }, st.arena.length)

def setSec (st : PState) (i : Nat) (s : HTMLSection) : PState :=
  { st with arena := st.arena.set i s }

def pushHier (st : PState) (i : Nat) : PState :=
  { st with hierarchy := st.hierarchy ++ [i] }

/-- Relation -1 backtracking loop of _update_section_hierarchy: pop until
the top numbers extend the new numbers. -/
def popToAncestorGo (arena : List HTMLSection) (numbers : List Nat) :
    List Nat → List Nat
  | [] => []
  | topId :: rest =>
    let cur := (arena.getD topId default).numbers
    if numbers.length ≤ cur.length ∧ numbers = cur.take numbers.length then topId :: rest
    else popToAncestorGo arena numbers rest

def popToAncestor (st : PState) (numbers : List Nat) : PState :=
  { st with hierarchy := (popToAncestorGo st.arena numbers st.hierarchy.reverse).reverse }

/-- Relation 2 recovery of _update_section_hierarchy: keep the longest
bottom part of the stack whose numbers lead into the new numbers. -/
def keepAncestorIds (st : PState) (numbers : List Nat) : PState :=
  { st with hierarchy := st.hierarchy.takeWhile (fun sid =>
      let sn := (getSec st sid).numbers
      sn.length ≤ numbers.length ∧ sn = numbers.take sn.length) }

/-- XMLPaperParser._update_section_hierarchy. -/
def updateSectionHierarchy (st : PState) (numbers0 : List Nat) (title : String)
    (element : Option XMLElem) (text : String) : Except PyErr (PState × Nat) := do
  let numbers :=
    if numbers0.isEmpty then
      match (hierSections st).getLast? with
      | some top => top.numbers ++ [1]
      | none => [1]
    else numbers0
  let relation ← compareSectionLevels (hierSections st) numbers
  let st :=
    if relation = -1 then popToAncestor st numbers
    else if relation = 2 then keepAncestorIds st numbers
    else st
  let sec : HTMLSection :=
    ⟨numbers, (numbers.length : Int), title, element, if text ≠ "" then [text] else []⟩
  let (st2, sid) := addSec st sec
  return (pushHier st2 sid, sid)

/-! ## Parsing one div -/

structure DivState where
  pstate : PState
  sections : List Nat
  currentSection : Option Nat
  hasSectionIndex : Bool

/-- The title payload a head parse carries; the parts form never reaches
the head call sites. -/
def titleStr : TitleVal → String
  | .str s => s
  | .parts _ => ""

/-- Else branch of the head case in _parse_div_with_complex_paragraphs:
either open an unnumbered level -1 section, or append the head text as a
paragraph of the current section. -/
def headFallbackBranch (ds : DivState) (child : XMLElem) (text : String) : DivState :=
  if ds.pstate.hierarchy.isEmpty ∨ ¬ds.hasSectionIndex then
    let sec : HTMLSection := ⟨[], -1, text, some child, []⟩
    let (st, sid) := addSec ds.pstate sec
    { pstate := pushHier st sid, sections := ds.sections ++ [sid],
      currentSection := some sid, hasSectionIndex := false }
  else
    match ds.currentSection with
    | some cs =>
      let text2 := extractTextFromElement child
      if text2 ≠ "" then
        let sec := getSec ds.pstate cs
        { ds with pstate := setSec ds.pstate cs ({ sec with paragraphs := sec.paragraphs ++ [text2] }) }
      else ds
    | none => ds

/-- Title back fill half of the plain paragraph handling, case 3 of the
source comment: when the current section is untitled, the index flag
holds and the text has a period anywhere, set the section title to the
part before the first period and continue with the left stripped
remainder. -/
def backfillStep (ds : DivState) (text0 : String) : DivState × String :=
  match ds.currentSection with
  | some cs =>
    let sec := getSec ds.pstate cs
    if ds.hasSectionIndex ∧ sec.title = "" ∧ text0.toList.contains '.' then
      ({ ds with pstate := setSec ds.pstate cs ({ sec with title := (text0.toList.takeWhile (fun c => c ≠ '.')).asString }) },
       (pyLstripL ((text0.toList.dropWhile (fun c => c ≠ '.')).tail)).asString)
    else (ds, text0)
  | none => (ds, text0)

/-- Attachment half of the plain paragraph handling: nonempty text goes
to the current section, else to the hierarchy top, else into a fresh
default section split at the first period, which raises ValueError when
the text has no period. -/
def attachParagraph (ds : DivState) (text : String) : Except PyErr DivState := do
  if text ≠ "" then
    match ds.currentSection with
    | some cs =>
      let sec := getSec ds.pstate cs
      return { ds with pstate := setSec ds.pstate cs ({ sec with paragraphs := sec.paragraphs ++ [text] }) }
    | none =>
      match ds.pstate.hierarchy.getLast? with
      | some topId =>
        let sec := getSec ds.pstate topId
        return { ds with pstate := setSec ds.pstate topId ({ sec with paragraphs := sec.paragraphs ++ [text] }) }
      | none =>
        if text.toList.contains '.' then
          let t := (text.toList.takeWhile (fun c => c ≠ '.')).asString
          let rest := ((text.toList.dropWhile (fun c => c ≠ '.')).tail).asString
          let sec : HTMLSection := ⟨[1], 1, t, none, [rest]⟩
          let (st, sid) := addSec ds.pstate sec
          return { ds with pstate := pushHier st sid, sections := ds.sections ++ [sid], currentSection := some sid }
        else throw .valueError
  else
    return ds

/-- Plain paragraph handling in the p case: the back fill step followed
by the attachment step. -/
def plainParagraph (ds : DivState) (text0 : String) : Except PyErr DivState :=
  attachParagraph (backfillStep ds text0).1 (backfillStep ds text0).2

/-- Loop body of _parse_div_with_complex_paragraphs over one child. -/
def processDivChild (ds : DivState) (child : XMLElem) : Except PyErr DivState := do
  if child.tag = "head" then
    let text := extractTextFromElement child
    let res ← parseSectionTitleFromP (hierSections ds.pstate) text .head child.nAttr
    match res with
    | some (numbers, title) =>
      if ds.hasSectionIndex then
        let (st, sid) ← updateSectionHierarchy ds.pstate numbers (titleStr title) (some child) ""
        return { ds with pstate := st, sections := ds.sections ++ [sid], currentSection := some sid }
      else
        return headFallbackBranch ds child text
    | none =>
      return headFallbackBranch ds child text
  else if child.tag = "p" then
    let text := extractTextFromElement child
    let res ←
      if ds.hasSectionIndex then
        parseSectionTitleFromP (hierSections ds.pstate) text .p none
      else pure none
    match res with
    | some (numbers, tv) =>
      match tv with
      | .parts [t, x] =>
        let (st, sid) ← updateSectionHierarchy ds.pstate numbers t (some child) x
        return { ds with pstate := st, sections := ds.sections ++ [sid], currentSection := some sid }
      | _ =>
        -- unpacking the split into two names fails when it has one part
        throw .valueError
    | none =>
      plainParagraph ds text
  else
    let text := extractTextFromElement child
    match ds.currentSection with
    | some cs =>
      let sec := getSec ds.pstate cs
      return { ds with pstate := setSec ds.pstate cs ({ sec with paragraphs := sec.paragraphs ++ [text] }) }
    | none =>
      match ds.pstate.hierarchy.getLast? with
      | some topId =>
        let sec := getSec ds.pstate topId
        return { ds with pstate := setSec ds.pstate topId ({ sec with paragraphs := sec.paragraphs ++ [text] }) }
      | none => return ds

/-- XMLPaperParser._parse_div_with_complex_paragraphs. -/
def parseDivWithComplexParagraphs (st : PState) (div : XMLElem) :
    Except PyErr (PState × List Nat) := do
  let hasIdx := st.hierarchy.isEmpty ∨ ((hierSections st).getLastD default).level ≥ 0
  let ds ← div.children.foldlM processDivChild ⟨st, [], none, hasIdx⟩
  return (ds.pstate, ds.sections)

/-! ## The output data model (paper_elements.py) and the hierarchy
conversion phase of _extract_body_sections.

The Python Section objects carry mutable child lists and parent back
pointers; since a child is attached to the current parent when created and
all later mutations go through the chain of currently open sections, the
open chain is modelled as a zipper stack of frames, the bottom frame
standing for the Paper, and closing a frame appends the finished Section
to the children of the frame below. -/

inductive SecTree where
  | node (name : String) (paragraphs : List String) (children : List SecTree)

def SecTree.name : SecTree → String | .node n _ _ => n

def SecTree.paragraphs : SecTree → List String | .node _ ps _ => ps

def SecTree.children : SecTree → List SecTree | .node _ _ cs => cs

/-- The Paper object fields the parser fills in. -/
structure PaperT where
  title : Option String
  author : String
  abstract : Option SecTree
  paragraphs : List String
  children : List SecTree
  hasSectionIndex : Bool

/-- One open Section under construction. -/
structure Frame where
  name : String
  paragraphs : List String
  children : List SecTree

def Frame.toTree (f : Frame) : SecTree := .node f.name f.paragraphs f.children

/-- Closing frame f attaches it as the last child of its parent frame g. -/
def mergeFrame (f g : Frame) : Frame := { g with children := g.children ++ [f.toTree] }

/-- Python list indexing with negative index support. -/
def pyIdx (l : List Nat) (i : Int) : Except PyErr Nat :=
  if 0 ≤ i ∧ i < (l.length : Int) then .ok (l.getD i.toNat 0)
  else if -(l.length : Int) ≤ i ∧ i < 0 then .ok (l.getD (l.length - (-i).toNat) 0)
  else .error .indexError

/-- Condition of the backtracking while loop in _extract_body_sections,
with Python evaluation order and short circuiting. -/
def backCond (curLevel : Int) (sec : HTMLSection) (lastChapter : List Nat) :
    Except PyErr Bool := do
  if curLevel > sec.level then return true
  else if curLevel ≥ 2 then
    let a ← pyIdx sec.numbers (curLevel - 2)
    let b ← pyIdx lastChapter (curLevel - 2)
    return decide (a ≠ b)
  else return false

/-- The backtracking while loop: close the top frame and go one level up
while the condition holds.  An error value carries the frame stack at the
moment the exception is raised: popping past the Paper frame leaves the
parent pointer at None and the next attribute access raises, before any
further change to the tree. -/
def backtrackLoop (sec : HTMLSection) (lastChapter : List Nat) :
    Nat → List Frame → Int → Except (List Frame) (List Frame × Int)
  | 0, stack, _ => .error stack
  | fuel + 1, stack, curLevel =>
    match backCond curLevel sec lastChapter with
    | .error _ => .error stack
    | .ok false => .ok (stack, curLevel)
    | .ok true =>
      match stack with
      | f :: g :: rest =>
        backtrackLoop sec lastChapter fuel (mergeFrame f g :: rest) (curLevel - 1)
      | _ => .error stack

/-- The level-filling while loop: open one empty-titled Section per
missing level. -/
def pushFillers : Nat → List Frame → List Frame
  | 0, stack => stack
  | k + 1, stack => pushFillers k (⟨"", [], []⟩ :: stack)

/-- The for loop of the hierarchy conversion phase. -/
def phase2Sections (hasIdx : Bool) :
    List HTMLSection → List Frame → Int → List Nat → Except (List Frame) (List Frame)
  | [], stack, _, _ => .ok stack
  | sec :: rest, stack, curLevel, lastChapter =>
    if hasIdx then
      match backtrackLoop sec lastChapter stack.length stack curLevel with
      | .error st2 => .error st2
      | .ok (stack2, curLevel2) =>
        let k := (sec.level - curLevel2).toNat
        let stack3 := (⟨sec.title, sec.paragraphs, []⟩ : Frame) :: pushFillers k stack2
        phase2Sections hasIdx rest stack3 (sec.level + 1) sec.numbers
    else
      let stack2 :=
        match stack with
        | f :: r => ({ f with children := f.children ++ [SecTree.node sec.title sec.paragraphs []] }) :: r
        | [] => []
      phase2Sections hasIdx rest stack2 curLevel lastChapter

/-- Close every remaining open frame into the frame below, repeatedly. -/
def collapseGo : Frame → List Frame → Frame
  | f, [] => f
  | f, g :: rest => collapseGo (mergeFrame f g) rest

/-- Close every remaining open frame into the bottom Paper frame. -/
def collapseStack : List Frame → Frame
  | [] => ⟨"", [], []⟩
  | f :: rest => collapseGo f rest

/-- The try block of _extract_body_sections.  Returns a success flag and
the paper as mutated up to the point of an exception; on failure the
caller runs the flat fallback on that partially mutated paper. -/
def runPhase2 (paper : PaperT) (pseudo : List HTMLSection) : Bool × PaperT :=
  match pseudo.head? with
  | none => (false, paper)
  | some s0 =>
    let paper := if s0.level = -1 then { paper with hasSectionIndex := false } else paper
    let root : Frame := ⟨"root", paper.paragraphs, paper.children⟩
    match phase2Sections paper.hasSectionIndex pseudo [root] 1 [1] with
    | .ok stack =>
      let f := collapseStack stack
      (true, { paper with paragraphs := f.paragraphs, children := f.children })
    | .error stack =>
      let f := collapseStack stack
      (false, { paper with paragraphs := f.paragraphs, children := f.children })

/-- Inner loop of _fallback_parse_paragraphs over the children of one
div: head text (with its n attribute when truthy) accumulates into a
buffer, any other child flushes the buffer plus a space plus its own text
as one flat paragraph, a trailing buffer is emitted on its own. -/
def fallbackDivLoop (paras : List String) (buffer : String) :
    List XMLElem → List String
  | [] => if buffer ≠ "" then paras ++ [buffer] else paras
  | c :: cs =>
    let text := extractTextFromElement c
    if "head".toList.isSuffixOf c.tag.toList then
      let text2 := match c.nAttr with
                   | some n => if n ≠ "" then n ++ " " ++ text else text
                   | none => text
      fallbackDivLoop paras (buffer ++ text2) cs
    else
      fallbackDivLoop (paras ++ [buffer ++ " " ++ text]) "" cs

/-- XMLPaperParser._fallback_parse_paragraphs: flatten every div of the
body into paragraphs attached directly to the paper. -/
def fallbackParseParagraphs (paper : PaperT) (body : XMLElem) : PaperT :=
  let divs := body.children.filter (fun c => c.tag = "div")
  { paper with paragraphs := divs.foldl (fun acc d => fallbackDivLoop acc "" d.children) paper.paragraphs }

/-! ## Descendant search for the find calls on the element tree -/

mutual

def preorderAll : XMLElem → List XMLElem
  | .mk t n ty tx tl ch => .mk t n ty tx tl ch :: preorderList ch

def preorderList : List XMLElem → List XMLElem
  | [] => []
  | c :: cs => preorderAll c ++ preorderList cs

end

def strictDesc (e : XMLElem) : List XMLElem := preorderList e.children

def findAllDeep (tag : String) (e : XMLElem) : List XMLElem :=
  (strictDesc e).filter (fun d => d.tag = tag)

def findDeep (tag : String) (e : XMLElem) : Option XMLElem := (findAllDeep tag e).head?

/-- A two step descendant-then-child path: the first child with the second
tag of any descendant with the first tag. -/
def findDeepChild (tag1 tag2 : String) (e : XMLElem) : Option XMLElem :=
  ((findAllDeep tag1 e).map (fun a => a.children.filter (fun c => c.tag = tag2))).flatten.head?

/-- XMLPaperParser._extract_title: the text of the first title under a
titleStmt; an element found with a None text yields None, no element at
all yields the empty string. -/
def extractTitle (root : XMLElem) : Option String :=
  match findDeepChild "titleStmt" "title" root with
  | some e => e.text
  | none => some ""

/-- XMLPaperParser._extract_authors_string. -/
def extractAuthorsString (root : XMLElem) : String :=
  let authors := ((findAllDeep "sourceDesc" root).map (fun sd => findAllDeep "author" sd)).flatten
  let names := authors.filterMap (fun a =>
    match findDeep "persName" a with
    | none => none
    | some pn =>
      let first :=
        match ((findAllDeep "forename" pn).filter (fun f => f.typeAttr = some "first")).head? with
        | none => ""
        | some f => match f.text with | some t => t | none => "None"
      let last :=
        match findDeep "surname" pn with
        | none => ""
        | some sEl => match sEl.text with | some t => t | none => "None"
      let full := pyStrip (first ++ " " ++ last)
      if full ≠ "" then some full else none)
  String.intercalate ", " names

/-- XMLPaperParser._extract_abstract. -/
def extractAbstract (root : XMLElem) : Option SecTree :=
  match findDeepChild "profileDesc" "abstract" root with
  | none => none
  | some ab =>
    let fromDivs := (((findAllDeep "div" ab).map (fun d => findAllDeep "p" d)).flatten).map
      extractTextFromElement
    let paras := if fromDivs.isEmpty then (findAllDeep "p" ab).map extractTextFromElement
                 else fromDivs
    if paras.isEmpty then none else some (.node "Abstract" paras [])

/-- XMLPaperParser._extract_body_sections.  Exceptions raised while the
divs are split into pseudo sections propagate to the caller; the
hierarchy conversion phase is inside try and degrades to the flat
fallback parse, keeping whatever was already attached to the paper. -/
def extractBodySections (st : PState) (paper : PaperT) (root : XMLElem) :
    Except PyErr (PState × PaperT) := do
  match findDeepChild "text" "body" root with
  | none => return (st, paper)
  | some body =>
    let divs := body.children.filter (fun c => c.tag = "div")
    let stIds ← divs.foldlM
      (fun (acc : PState × List Nat) d => do
        let (st2, secs) ← parseDivWithComplexParagraphs acc.1 d
        return (st2, acc.2 ++ secs))
      (st, [])
    let pseudo := stIds.2.map (getSec stIds.1)
    match runPhase2 paper pseudo with
    | (true, paper2) => return (stIds.1, paper2)
    | (false, paper2) => return (stIds.1, fallbackParseParagraphs paper2 body)

/-- XMLPaperParser.parse: build the Paper, extract the metadata, then the
body sections.  The instance state (the hierarchy and its arena) is
threaded explicitly, and parse does not reset it. -/
def parse (st : PState) (root : XMLElem) : Except PyErr (PState × PaperT) :=
  let paper : PaperT :=
    { title := extractTitle root
      author := extractAuthorsString root
      abstract := extractAbstract root
      paragraphs := []
      children := []
      hasSectionIndex := true }
  extractBodySections st paper root

/-! ## Concrete input trees used by the theorems -/

/-- A head element with an n attribute and a text. -/
def headEl (n : String) (t : String) : XMLElem := .mk "head" (some n) none (some t) none []

/-- A head element without an n attribute. -/
def headEl0 (t : String) : XMLElem := .mk "head" none none (some t) none []

/-- A paragraph element with a text. -/
def pEl (t : String) : XMLElem := .mk "p" none none (some t) none []

def divEl (cs : List XMLElem) : XMLElem := .mk "div" none none none none cs

/-- A minimal TEI document with the given body divs. -/
def teiEl (divs : List XMLElem) : XMLElem :=
  .mk "TEI" none none none none
    [.mk "text" none none none none [.mk "body" none none none none divs]]

/-- A body whose single div holds a single paragraph with no period. -/
def exC1 : XMLElem := teiEl [divEl [pEl "hello world"]]

/-- A paragraph with a citation reference: text Cited, a ref child whose
own text is the marker and whose tail continues the sentence. -/
def exC2 : XMLElem :=
  .mk "p" none none (some "Cited") none
    [.mk "ref" none none (some "[12]") (some " continues") []]

/-- The six block stream of the spec example. -/
def exC3 : XMLElem :=
  teiEl [divEl [headEl "1" "Introduction", pEl "Text A",
                headEl "1.1" "Background", pEl "Text B",
                headEl "2" "Methods", pEl "Text C"]]

/-- Heads carrying the intentionally inconsistent address sequence. -/
def exC7 : XMLElem :=
  teiEl [divEl [headEl "1" "A", headEl "1.1" "B", headEl "5.3.2" "C", headEl "1.2" "D"]]

/-- A single paragraph that parses as an embedded heading on a fresh
instance but not against a stale hierarchy. -/
def exC9 : XMLElem := teiEl [divEl [pEl "1.1. Overview. Some text"]]

/-- A hierarchy whose top frame has address 1.1 over a frame 1. -/
def hierC6 : List HTMLSection :=
  [⟨[1], 1, "A", none, []⟩, ⟨[1, 1], 2, "B", none, []⟩]

/-- A div opening an untitled section 3.2 followed by a paragraph whose
first period sits inside a decimal number, before any sentence boundary. -/
def exC8ce : XMLElem :=
  divEl [headEl0 "3.2.", pEl "Version 1.2 works. The rest follows."]

mutual

/-- Recursive absence of any text or tail in an element tree. -/
def noTextAnywhere : XMLElem → Bool
  | .mk _ _ _ tx tl ch => tx.isNone && tl.isNone && noTextList ch

def noTextList : List XMLElem → Bool
  | [] => true
  | c :: cs => noTextAnywhere c && noTextList cs

end

/-! ## Claim theorems: concrete evaluations -/

/-- C1: the claim states that parse returns a structurally valid Document
on every markup tree and never raises, naming a first paragraph block
with no period before any open section.  Exactly there the source unpacks
text.split on a period into two names inside
_parse_div_with_complex_paragraphs, which raises ValueError on the one
part result, outside the try that guards only the hierarchy conversion;
the embedded parse returns the error instead of a Paper. -/
theorem parse_fails_on_periodless_first_paragraph :
    parse initPState exC1 = .error .valueError := rfl

/-- C2: the claim states extraction excludes the entire subtree of a
reference sub-node, so a citation marker never appears, while keeping the
tail of the reference.  The code appends the element text before testing
the tag, so only the children of a ref are skipped and the marker text of
the ref itself is kept: the example extraction contains the marker. -/
theorem extract_text_keeps_reference_text :
    extractTextFromElement exC2 = "Cited[12] continues" := rfl

/-- C3: the six block stream, head 1 Introduction, p Text A, head 1.1
Background, p Text B, head 2 Methods, p Text C, yields exactly two top
level Sections: Introduction holding paragraph Text A with the single
child Background holding Text B, then Methods holding Text C. -/
theorem six_block_stream_two_top_level_sections :
    (parse initPState exC3).map (fun r => r.2.children) =
      .ok [.node "Introduction" ["Text A"] [.node "Background" ["Text B"] []],
           .node "Methods" ["Text C"] []] := rfl

/-- C5 counterexample: a head block whose attached address is numeric and
whose own title text starts with the keyword figure as a whole token is
still classified as a heading, because the keyword test runs on the text
with the address already prepended; the claim said such a block is never
a heading regardless of any attached address. -/
theorem numbered_head_with_keyword_title_is_heading :
    startsWithNonSectionKeyword (pyStrip (pyLower "Figure something")) = true ∧
    parseSectionTitleFromP [] "Figure something" .head (some "1") =
      .ok (some ([1], .str "Figure something")) := ⟨rfl, rfl⟩

/-- C6 counterexample: against the open stack 1, 1.1 the candidate 2 is
the ascend relation, value -1, which is neither the descend value 1 nor
the sibling value 0; the claim said only descend or sibling make an
ordinary paragraph an embedded heading, yet the block is classified as
one because the code only excludes the inconsistent value 2. -/
theorem embedded_heading_accepted_on_ascend_relation :
    compareSectionLevels hierC6 [2] = .ok (-1) ∧
    parseSectionTitleFromP hierC6 "2. Conclusions follow. More text." .p none =
      .ok (some ([2], .parts ["Conclusions follow.", "More text."])) := ⟨rfl, rfl⟩

/-- C7 counterexample: on the inconsistent address sequence 1, 1.1,
5.3.2, 1.2 the claim promises a flat Document with no child Sections;
the parse recovers inside the hierarchy update instead, never reaches the
fallback, and returns a Document with three top level Sections. -/
theorem inconsistent_sequence_yields_nonflat_document :
    (parse initPState exC7).map (fun r => r.2.children.length) = .ok 3 := rfl

/-- C7 amended: on the inconsistent address sequence 1, 1.1, 5.3.2, 1.2
the parse does not raise, but the partially built hierarchy is kept, not
discarded: the address with no prefix-matching open frame resets the open
stack and starts a new top level branch, with empty-titled filler
Sections synthesized for the skipped levels; the flat fallback runs only
when the hierarchy conversion phase raises. -/
theorem inconsistent_sequence_builds_nested_branches :
    (parse initPState exC7).map (fun r => r.2.children) =
      .ok [.node "A" [] [.node "B" [] []],
           .node "" [] [.node "" [] [.node "C" [] []]],
           .node "" [] [.node "D" [] []]] := rfl

/-- C8 counterexample: the paragraph Version 1.2 works. The rest follows.
reaches an open untitled section; its early sentence boundary sits after
works, but the back fill splits at the first period of the text, inside
the decimal number, making the title Version 1 and the remainder start at
2; the claim predicted the split at the sentence boundary. -/
theorem title_backfill_splits_inside_decimal_number :
    (parseDivWithComplexParagraphs initPState exC8ce).map
        (fun r => (r.1.arena.map (fun s => (s.title, s.paragraphs)), r.2)) =
      .ok ([("Version 1", ["2 works. The rest follows."])], [0]) := rfl

/-- C9 counterexample: the hierarchy stack of the instance is not reset
between parse calls; on the same input the first invocation returns a
Document with one top level Section, while the second invocation on the
same instance fails the embedded heading check against the stale stack,
degrades to the fallback, and returns a flat Document with one leading
paragraph: the two Documents differ, so parse is not repeatable on one
instance. -/
theorem repeat_parse_on_same_instance_differs :
    (parse initPState exC9).map (fun r => (r.2.children.length, r.2.paragraphs)) =
      .ok (1, []) ∧
    ((parse initPState exC9).bind (fun r => parse r.1 exC9)).map
        (fun r => (r.2.children.length, r.2.paragraphs)) =
      .ok (0, [" 1.1. Overview. Some text"]) := ⟨rfl, rfl⟩

/-- C9 amended: the parse result is a function of the explicit instance
state and the input tree alone, hence two invocations with equal states
and equal inputs, in particular on separately constructed fresh
instances, return identical Documents; repeatability on one instance
fails only because a completed parse leaves its hierarchy in the state. -/
theorem parse_depends_only_on_state_and_input (st1 st2 : PState) (r1 r2 : XMLElem)
    (h1 : st1 = st2) (h2 : r1 = r2) : parse st1 r1 = parse st2 r2 := by
  rw [h1, h2]

theorem parse_depends_only_witness :
    parse initPState exC9 = parse initPState exC9 :=
  parse_depends_only_on_state_and_input initPState initPState exC9 exC9 rfl rfl

/-! ## Claim theorems: general statements -/

/-- C5 amended: when the effective text of a block, which for head blocks
has a nonempty attached address prepended first, lowercased and stripped,
starts with one of the fourteen keywords of the source list, keyword fig
included, matched as a plain string prefix rather than a whole leading
token, the classifier returns no heading and the block stays a plain
paragraph; a head block whose numeric attached address precedes a keyword
leading title is not caught by this rule, because the prepended address
makes the effective text start with a digit. -/
theorem keyword_prefixed_text_is_plain_paragraph (hier : List HTMLSection)
    (text0 : String) (etype : EType) (nAttr : Option String)
    (hkw : startsWithNonSectionKeyword
        (pyStrip (pyLower (effectiveText text0 etype nAttr))) = true) :
    parseSectionTitleFromP hier text0 etype nAttr = .ok none := by
  simp [parseSectionTitleFromP, hkw, pure, Except.pure]

theorem keyword_prefixed_text_witness :
    startsWithNonSectionKeyword
        (pyStrip (pyLower (effectiveText "Figure 2 shows the result" .p none))) = true ∧
    parseSectionTitleFromP [] "Figure 2 shows the result" .p none = .ok none :=
  ⟨rfl, keyword_prefixed_text_is_plain_paragraph [] "Figure 2 shows the result" .p none rfl⟩

/-- Induction over the element rose tree with a membership hypothesis for
the children. -/
theorem xmlElemInduction {motive : XMLElem → Prop}
    (h : ∀ t n ty tx tl ch, (∀ c, c ∈ ch → motive c) → motive (.mk t n ty tx tl ch)) :
    ∀ e, motive e
  | .mk t n ty tx tl ch => h t n ty tx tl ch (fun c hc => xmlElemInduction h c)
termination_by e => sizeOf e
decreasing_by
  have h2 := List.sizeOf_lt_of_mem hc
  simp only [XMLElem.mk.sizeOf_spec]
  omega

theorem noTextList_mem : ∀ cs : List XMLElem, noTextList cs = true →
    ∀ c, c ∈ cs → noTextAnywhere c = true
  | c :: cs, h, c2, hm => by
    simp only [noTextList, Bool.and_eq_true] at h
    rcases List.mem_cons.mp hm with h2 | h2
    · exact h2 ▸ h.1
    · exact noTextList_mem cs h.2 c2 h2

theorem processChildren_eq_empty (d : Nat) :
    ∀ cs : List XMLElem, (∀ c, c ∈ cs → processElem c d = "") →
      processChildren cs d = ""
  | [], _ => rfl
  | c :: cs, h => by
    have hc := h c (List.mem_cons_self c cs)
    have hrest := processChildren_eq_empty d cs
      (fun c2 hc2 => h c2 (List.mem_cons_of_mem c hc2))
    simp [processChildren, hc, hrest]

theorem processElem_of_noText :
    ∀ e : XMLElem, noTextAnywhere e = true → ∀ d : Nat, processElem e d = "" := by
  intro e
  induction e using xmlElemInduction with
  | h t n ty tx tl ch ih =>
    intro hnt d
    simp only [noTextAnywhere, Bool.and_eq_true] at hnt
    obtain ⟨⟨htx, htl⟩, hch⟩ := hnt
    rw [Option.isNone_iff_eq_none] at htx htl
    subst htx htl
    have hchildren : processChildren ch (d + 1) = "" :=
      processChildren_eq_empty (d + 1) ch
        (fun c hc => ih c hc (noTextList_mem ch hch c hc) (d + 1))
    simp [processElem, hchildren, pyTruthy]

/-- C10: text extraction never includes the tail of the element it is
called on, only the tails of proper descendants, and extraction of a tree
with no text anywhere returns the empty string instead of failing. -/
theorem extract_text_excludes_root_tail_and_never_fails :
    (∀ (e : XMLElem) (tl : Option String),
        extractTextFromElement (e.withTail tl) = extractTextFromElement e) ∧
    (∀ e : XMLElem, noTextAnywhere e = true → extractTextFromElement e = "") := by
  constructor
  · intro e tl
    cases e with
    | mk t n ty tx tl0 ch =>
      simp [extractTextFromElement, XMLElem.withTail, processElem]
  · intro e hnt
    unfold extractTextFromElement
    rw [processElem_of_noText e hnt 0]
    rfl

def exC10a : XMLElem := pEl "x"

def exC10b : XMLElem := .mk "p" none none none none [.mk "hi" none none none none []]

theorem ascendLoop_eq_or : ∀ l : List (Nat × Nat), ascendLoop l = -1 ∨ ascendLoop l = 2
  | [] => .inr rfl
  | (i, j) :: rest => by
    by_cases h1 : j = i + 1
    · exact .inl (by simp [ascendLoop, h1])
    · by_cases h2 : i = j
      · simpa [ascendLoop, h1, h2] using ascendLoop_eq_or rest
      · exact .inr (by simp [ascendLoop, h1, h2])

/-- C4: on a nonempty stack with top numbers T, the comparison answers
the sibling value 0 exactly when the candidate has the length of T,
agrees with T off the last component, and its last component is the last
component of T plus one; it answers the descend value 1 exactly when the
candidate is one longer than T, extends T, and ends in 0 or 1; and on an
empty stack every candidate gets the descend value 1. -/
theorem compare_levels_sibling_descend_characterisation
    (hier : List HTMLSection) (top : HTMLSection) (cand : List Nat)
    (htop : hier.getLast? = some top) :
    (compareSectionLevels hier cand = .ok 0 ↔
      (cand.length = top.numbers.length ∧
       cand.dropLast = top.numbers.dropLast ∧
       ∃ t, top.numbers.getLast? = some t ∧ cand.getLast? = some (t + 1))) ∧
    (compareSectionLevels hier cand = .ok 1 ↔
      (cand.length = top.numbers.length + 1 ∧
       cand.dropLast = top.numbers ∧
       (cand.getLast? = some 0 ∨ cand.getLast? = some 1))) ∧
    (∀ c : List Nat, compareSectionLevels [] c = .ok 1) := by
  unfold compareSectionLevels
  rw [htop]
  dsimp only
  refine ⟨?_, ?_, fun c => rfl⟩ <;>
    set T := top.numbers with hT
  · -- sibling characterisation
    split_ifs with hA hB hC
    · -- descend branch answers ok 1, and the sibling length is off by one
      obtain ⟨hlenA, -, -⟩ := hA
      constructor
      · intro h01
        simp at h01
      · rintro ⟨hlen, -, -⟩
        omega
    · -- lengths equal and dropLast equal: the inner match decides
      rcases hcl : cand.getLast? with _ | a
      · simp [hcl]
      · rcases htl2 : T.getLast? with _ | b
        · simp [hcl, htl2]
        · dsimp only
          by_cases hab : a = b + 1
          · rw [if_pos hab]
            subst hab
            constructor
            · intro _
              exact ⟨hB, hC, b, rfl, rfl⟩
            · intro _
              rfl
          · rw [if_neg hab]
            constructor
            · intro h
              rcases ascendLoop_eq_or (T.zip cand) with h2 | h2 <;> rw [h2] at h <;> simp at h
            · rintro ⟨-, -, t, ht, hc2⟩
              cases ht
              cases hc2
              exact absurd rfl hab
    · -- lengths equal, dropLast different: ascend loop result, never 0
      constructor
      · intro h
        rcases ascendLoop_eq_or (T.zip cand) with h2 | h2 <;> rw [h2] at h <;> simp at h
      · rintro ⟨-, hdrop, -⟩
        exact absurd hdrop hC
    · -- lengths differ: ascend loop result, never 0
      constructor
      · intro h
        rcases ascendLoop_eq_or (T.zip cand) with h2 | h2 <;> rw [h2] at h <;> simp at h
      · rintro ⟨hlen, -, -⟩
        exact absurd hlen hB
  · -- descend characterisation
    split_ifs with hA hB hC
    · obtain ⟨hlen, hdrop, hlast⟩ := hA
      constructor
      · intro _
        refine ⟨hlen, hdrop, ?_⟩
        rcases hgl : cand.getLast? with _ | a
        · have hcand := List.getLast?_eq_none_iff.mp hgl
          rw [hcand] at hlen
          simp at hlen
        · rw [List.getLastD_eq_getLast?, hgl] at hlast
          simp at hlast
          rcases hlast with h0 | h0 <;> rw [h0]
          · exact .inl rfl
          · exact .inr rfl
      · intro _
        rfl
    · -- lengths equal: the match never answers ok 1
      constructor
      · intro h
        rcases hcl : cand.getLast? with _ | a
        · rw [hcl] at h
          simp at h
        · rcases htl2 : T.getLast? with _ | b
          · rw [hcl, htl2] at h
            simp at h
          · rw [hcl, htl2] at h
            dsimp only at h
            by_cases hab : a = b + 1
            · rw [if_pos hab] at h
              simp at h
            · rw [if_neg hab] at h
              rcases ascendLoop_eq_or (T.zip cand) with h2 | h2 <;> rw [h2] at h <;> simp at h
      · rintro ⟨hlen, -, -⟩
        omega
    · constructor
      · intro h
        rcases ascendLoop_eq_or (T.zip cand) with h2 | h2 <;> rw [h2] at h <;> simp at h
      · rintro ⟨hlen, -, -⟩
        omega
    · constructor
      · intro h
        rcases ascendLoop_eq_or (T.zip cand) with h2 | h2 <;> rw [h2] at h <;> simp at h
      · rintro ⟨hlen, hdrop, hlast⟩
        refine absurd ⟨hlen, hdrop, ?_⟩ hA
        rw [List.getLastD_eq_getLast?]
        rcases hlast with h0 | h0 <;> rw [h0]
        · exact .inl rfl
        · exact .inr rfl

/-- C6 amended: an ordinary paragraph block is classified as an embedded
heading exactly when its text avoids the leading non-section keywords,
its leading text parses as address, period, whitespace and rest, and the
speculative check of the parsed address against the current hierarchy
yields any relation other than the inconsistent value 2, that is descend,
sibling or also ascend; only the inconsistent relation, or an address
that does not parse, leaves the block a plain paragraph. -/
theorem embedded_heading_classification_iff
    (hier : List HTMLSection) (text : String) (nums : List Nat) (tv : TitleVal) :
    parseSectionTitleFromP hier text .p none = .ok (some (nums, tv)) ↔
      (startsWithNonSectionKeyword (pyStrip (pyLower text)) = false ∧
       parseSectionNumber text .p none = .ok (some (nums, tv)) ∧
       nums ≠ [] ∧
       ∃ r, compareSectionLevels hier nums = .ok r ∧ r ≠ 2) := by
  have heff : effectiveText text .p none = text := rfl
  cases hkw : startsWithNonSectionKeyword (pyStrip (pyLower text)) with
  | true =>
    simp only [parseSectionTitleFromP, heff, hkw]
    simp [pure, Except.pure]
  | false =>
    cases hpn : parseSectionNumber text EType.p none with
    | error e =>
      simp only [parseSectionTitleFromP, heff, hkw, hpn]
      simp [Bind.bind, Except.bind]
    | ok res =>
      cases res with
      | none =>
        simp only [parseSectionTitleFromP, heff, hkw, hpn]
        simp [Bind.bind, Except.bind, pure, Except.pure]
      | some p =>
        obtain ⟨nums2, tv2⟩ := p
        by_cases hemp : nums2 = []
        · subst hemp
          simp only [parseSectionTitleFromP, heff, hkw, hpn]
          simp only [Bind.bind, Except.bind]
          constructor
          · intro h
            simp [pure, Except.pure] at h
          · rintro ⟨-, hpn2, hne, -⟩
            simp only [Except.ok.injEq, Option.some.injEq, Prod.mk.injEq] at hpn2
            exact absurd hpn2.1.symm hne
        · cases hcmp : compareSectionLevels hier nums2 with
          | error e =>
            simp only [parseSectionTitleFromP, heff, hkw, hpn]
            simp only [Bind.bind, Except.bind]
            rw [if_neg (show ¬((false : Bool) = true) by simp)]
            rw [if_neg (show ¬nums2.isEmpty = true by simpa using hemp)]
            rw [if_neg (show ¬EType.p = EType.head by simp)]
            rw [hcmp]
            dsimp only
            constructor
            · intro h
              simp at h
            · rintro ⟨-, hpn2, -, r, hcmp2, -⟩
              simp only [Except.ok.injEq, Option.some.injEq, Prod.mk.injEq] at hpn2
              obtain ⟨hnn, -⟩ := hpn2
              rw [hnn] at hcmp
              rw [hcmp] at hcmp2
              simp at hcmp2
          | ok r =>
            simp only [parseSectionTitleFromP, heff, hkw, hpn]
            simp only [Bind.bind, Except.bind]
            rw [if_neg (show ¬((false : Bool) = true) by simp)]
            rw [if_neg (show ¬nums2.isEmpty = true by simpa using hemp)]
            rw [if_neg (show ¬EType.p = EType.head by simp)]
            rw [hcmp]
            dsimp only
            by_cases hr : r = 2
            · rw [if_neg (not_not_intro hr)]
              constructor
              · intro h
                simp [pure, Except.pure] at h
              · rintro ⟨-, hpn2, -, r2, hcmp2, hr2⟩
                simp only [Except.ok.injEq, Option.some.injEq, Prod.mk.injEq] at hpn2
                obtain ⟨hnn, -⟩ := hpn2
                rw [hnn] at hcmp
                rw [hcmp] at hcmp2
                simp only [Except.ok.injEq] at hcmp2
                rw [← hcmp2] at hr2
                exact absurd hr hr2
            · rw [if_pos hr]
              constructor
              · intro h
                simp only [pure, Except.pure, Except.ok.injEq, Option.some.injEq,
                  Prod.mk.injEq] at h
                obtain ⟨hnn, htv⟩ := h
                refine ⟨by simp, ?_, ?_, r, ?_, hr⟩
                · rw [hnn, htv]
                · rw [← hnn]
                  exact hemp
                · rw [← hnn]
                  exact hcmp
              · rintro ⟨-, hpn2, -, r2, hcmp2, hr2⟩
                simp only [Except.ok.injEq, Option.some.injEq, Prod.mk.injEq] at hpn2
                obtain ⟨hnn, htv⟩ := hpn2
                rw [hnn, htv]
                rfl

theorem compare_levels_characterisation_witness :
    ([⟨[1, 2], 2, "t", none, []⟩] : List HTMLSection).getLast? =
      some ⟨[1, 2], 2, "t", none, []⟩ ∧
    compareSectionLevels [⟨[1, 2], 2, "t", none, []⟩] [1, 3] = .ok 0 ∧
    compareSectionLevels [⟨[1, 2], 2, "t", none, []⟩] [1, 2, 1] = .ok 1 ∧
    compareSectionLevels [] [7] = .ok 1 := by
  have h := compare_levels_sibling_descend_characterisation
    [⟨[1, 2], 2, "t", none, []⟩] ⟨[1, 2], 2, "t", none, []⟩ [1, 3] rfl
  have h2 := compare_levels_sibling_descend_characterisation
    [⟨[1, 2], 2, "t", none, []⟩] ⟨[1, 2], 2, "t", none, []⟩ [1, 2, 1] rfl
  refine ⟨rfl, ?_, ?_, h.2.2 [7]⟩
  · exact h.1.2 ⟨rfl, rfl, 2, rfl, rfl⟩
  · exact h2.2.1.2 ⟨rfl, rfl, .inr rfl⟩

theorem getSec_setSec_self (st : PState) (i : Nat) (s : HTMLSection)
    (hi : i < st.arena.length) : getSec (setSec st i s) i = s := by
  unfold getSec setSec
  simp only [List.getD_eq_getElem?_getD, List.getElem?_set_self']
  rw [List.getElem?_eq_getElem hi]
  rfl

theorem getSec_setSec_setSec_self (st : PState) (i : Nat) (a b : HTMLSection)
    (hi : i < st.arena.length) : getSec (setSec (setSec st i a) i b) i = b := by
  have hi2 : i < (setSec st i a).arena.length := by
    unfold setSec
    simpa using hi
  exact getSec_setSec_self (setSec st i a) i b hi2

/-- C8 amended: when the current section is untitled and the section
index flag holds, an incoming plain paragraph whose text contains a
period anywhere, not necessarily at a sentence boundary, is split at the
first period: the part before it becomes the section title and the left
stripped remainder becomes the paragraph, dropped entirely when it
strips to nothing; the same rule fires on any later paragraph while the
title is still empty, not only the first one, and an exclamation or
question mark never triggers a split. -/
theorem title_backfill_on_first_period
    (ds : DivState) (child : XMLElem) (i : Nat) (t : String)
    (hidx : ds.hasSectionIndex = true)
    (hcur : ds.currentSection = some i)
    (hi : i < ds.pstate.arena.length)
    (htitle : (getSec ds.pstate i).title = "")
    (htag : child.tag = "p")
    (htext : extractTextFromElement child = t)
    (hparse : parseSectionTitleFromP (hierSections ds.pstate) t .p none = .ok none)
    (hdot : t.toList.contains '.' = true) :
    (processDivChild ds child).map
        (fun ds2 => ((getSec ds2.pstate i).title, (getSec ds2.pstate i).paragraphs)) =
      .ok ((t.toList.takeWhile (fun c => c ≠ '.')).asString,
           (getSec ds.pstate i).paragraphs ++
             (if (pyLstripL ((t.toList.dropWhile (fun c => c ≠ '.')).tail)).asString ≠ ""
              then [(pyLstripL ((t.toList.dropWhile (fun c => c ≠ '.')).tail)).asString]
              else [])) := by
  have hstep : processDivChild ds child = plainParagraph ds t := by
    simp [processDivChild, htag, htext, hidx, hcur, hparse, Bind.bind, Except.bind]
  have hbf : backfillStep ds t =
      ({ ds with pstate := setSec ds.pstate i ({ getSec ds.pstate i with title := (t.toList.takeWhile (fun c => c ≠ '.')).asString }) },
       (pyLstripL ((t.toList.dropWhile (fun c => c ≠ '.')).tail)).asString) := by
    unfold backfillStep
    rw [hcur]
    try dsimp only
    rw [if_pos ⟨hidx, htitle, hdot⟩]
  rw [hstep, plainParagraph, hbf]
  try dsimp only
  by_cases hb : (pyLstripL ((t.toList.dropWhile (fun c => c ≠ '.')).tail)).asString = ""
  · unfold attachParagraph
    simp only [if_neg (not_not_intro hb)]
    simp only [pure, Except.pure, Except.map]
    try dsimp only
    rw [getSec_setSec_self _ _ _ hi]
    simp [hb]
  · unfold attachParagraph
    simp only [if_pos hb]
    try dsimp only
    rw [hcur]
    try dsimp only
    rw [getSec_setSec_self _ _ _ hi]
    simp only [pure, Except.pure, Except.map]
    try dsimp only
    rw [getSec_setSec_setSec_self _ _ _ _ hi]

/-- A div state with one open untitled section 3.2 in the arena. -/
def ds8 : DivState := ⟨⟨[⟨[3, 2], 2, "", none, []⟩], [0]⟩, [0], some 0, true⟩

def child8 : XMLElem := pEl "Introduction. This paper presents a new method."

theorem title_backfill_witness :
    (processDivChild ds8 child8).map
        (fun ds2 => ((getSec ds2.pstate 0).title, (getSec ds2.pstate 0).paragraphs)) =
      .ok ("Introduction", ["This paper presents a new method."]) := by
  have h := title_backfill_on_first_period ds8 child8 0
    "Introduction. This paper presents a new method." rfl rfl (by decide) rfl rfl rfl rfl rfl
  exact h.trans (by rfl)

theorem extract_text_root_tail_witness :
    extractTextFromElement (exC10a.withTail (some " trailing")) =
      extractTextFromElement exC10a ∧
    noTextAnywhere exC10b = true ∧ extractTextFromElement exC10b = "" :=
  ⟨extract_text_excludes_root_tail_and_never_fails.1 exC10a (some " trailing"),
   rfl,
   extract_text_excludes_root_tail_and_never_fails.2 exC10b rfl⟩

end QkgPdf
